import Mathlib

/-!
Verification development for the run orchestration engine of the
`cypress-runner` repository (an Express server that executes uploaded
Cypress test suites as external processes).

The embedding below translates the relevant JavaScript into Lean:

* `src/server/index.js` — the original server (`runCypress`, `broadcast`,
  the `/start`, `/runs/:id/stream` handlers, `getRunVideos`,
  `getRunScreenshots`, `getRunResults`);
* `src/server/index-improved.js` — the improved server (same handlers plus
  a child-process `error` listener, a registry check on the stream
  endpoint, and `cleanupOldRuns`);
* `src/unnamed/part_002` — a variant of the original server whose
  `/start` handler is the one cited for the upload flow.

Stateful code is embedded as explicit state passing: the mutable
`runs`/`clients` maps and the relevant parts of the filesystem become
fields of a state record, and each JavaScript event handler becomes a
function from state to state.  Asynchronous process supervision becomes a
trace of events constrained by the orderings Node guarantees for
`child_process` (spawn attempt precedes `error`/`close`; `data` events
happen only between a successful spawn and `close`; `close` fires once,
last, with a null exit code exactly when the process never ran).
-/

namespace CypressRunner

/-- The `status` field of a run record: `'queued'`, `'running'`, `'done'`
or `'failed'` (string literals in the JavaScript). -/
inductive Status where
  | queued
  | running
  | done
  | failed
deriving DecidableEq, Repr

/-- The `paths` object stored in a run record at creation
(`src/server/index.js:65`): `runPath` is the stable per-run directory,
`workPath` the ephemeral execution workspace `runPath/work`. -/
structure RunPaths where
  runPath : String
  workPath : String
deriving DecidableEq, Repr

/-- One registry record, as built by the `/start` handler
(`src/server/index.js:65`).  `exitCode` models the recorded exit code:
the run record in the JavaScript holds no such field in memory; the code
records the exit code by writing `runPath/exit-code.txt` in the `close`
handler (`src/server/index.js:179`), and `exitCode = none` models the
marker file being absent. -/
structure Run where
  id : String
  createdAt : Nat
  status : Status
  baseUrl : Option String
  filename : String
  paths : RunPaths
  exitCode : Option Int
deriving DecidableEq, Repr

/-- The record the `/start` handler inserts into the registry
(`src/server/index.js:65`): status `queued`, no exit code recorded. -/
def initialRun (id : String) (now : Nat) (baseUrl : Option String)
    (filename : String) (paths : RunPaths) : Run :=
  { id := id, createdAt := now, status := .queued, baseUrl := baseUrl,
    filename := filename, paths := paths, exitCode := none }

/-! ### Per-run supervision events

`runCypress` (src/server/index-improved.js:281-372, and the equivalent
src/server/index.js:132-204) supervises one child process.  Its
observable steps are: the function body starts executing
(`beginSupervision`, which performs `run.status = 'running'` at
index-improved.js:289 / index.js:134 before anything is spawned), the
`spawn` call succeeds (`spawnOk`, index-improved.js:324), a stdout or
stderr `data` event (`chunk`, index-improved.js:329-339), the
child-process `error` event fired on a spawn failure (`spawnError`,
handled at index-improved.js:341-345), and the `close` event
(`procClose`, index-improved.js:347-366); on a spawn failure the `close`
event carries a null exit code, modeled as `none`. -/
inductive RunEvent where
  | beginSupervision
  | spawnOk
  | chunk (data : String)
  | spawnError (msg : String)
  | procClose (code : Option Int)
deriving DecidableEq, Repr

/-- One run's registry record together with the log of messages broadcast
on its channel (the successive `data` payloads every live subscriber is
sent by `broadcast`). -/
structure SupState where
  run : Run
  log : List String
deriving DecidableEq, Repr

/-- Rendering of a status as the string interpolated into the
`RUN_DONE status=... code=...` termination line
(src/server/index-improved.js:352). -/
def statusName : Status → String
  | .queued => "queued"
  | .running => "running"
  | .done => "done"
  | .failed => "failed"

/-- The termination marker broadcast by the `close` handler
(src/server/index-improved.js:352, src/server/index.js:197). -/
def runDoneLine (st : Status) (code : Int) : String :=
  "RUN_DONE status=" ++ statusName st ++ " code=" ++ toString code

/-- Effect of one supervision event on the run record and channel log,
translated from `runCypress` in src/server/index-improved.js:

* `beginSupervision`: `run.status = 'running'` (line 289), executed as the
  first statement of the function body, before the folders are created,
  before `findConfigFile` is awaited and before `spawn` is called;
* `spawnOk`: the `spawn` call itself mutates nothing in the record;
* `chunk d`: the stdout/stderr handler broadcasts the chunk (lines
  329-339; the improved server performs no stripping and instead passes
  `NO_COLOR=1` to the child, line 326);
* `spawnError m`: the `error` handler sets `run.status = 'failed'` and
  broadcasts a diagnostic line (lines 341-345); no exit code is written;
* `procClose c`: the `close` handler sets
  `run.status = code === 0 ? 'done' : 'failed'` (line 348), then writes
  the exit code marker and broadcasts the `RUN_DONE` line (lines
  349-352).  When `c = none` (the null code of a process that never
  spawned), `code.toString()` at line 349 throws on the null value, so
  the handler aborts after the status assignment: no exit code is
  recorded and no `RUN_DONE` line is broadcast. -/
def applyRunEvent (s : SupState) : RunEvent → SupState
  | .beginSupervision => { s with run := { s.run with status := .running } }
  | .spawnOk => s
  | .chunk d => { s with log := s.log ++ [d] }
  | .spawnError m =>
      { run := { s.run with status := .failed },
        log := s.log ++ ["ERROR: " ++ m] }
  | .procClose c =>
      let st := if c = some 0 then Status.done else Status.failed
      match c with
      | some k =>
          { run := { s.run with status := st, exitCode := some k },
            log := s.log ++ [runDoneLine st k] }
      | none => { s with run := { s.run with status := st } }

/-- Phases of a supervised child process, used to state which event
orders can actually occur (Node `child_process` semantics: the `error`
event of a failed spawn precedes `close`, `data` events happen only
after a successful spawn and before `close`, and `close` fires once,
last, with a null code when the process never spawned). -/
inductive SupPhase where
  | created
  | supervising
  | spawned
  | errored
  | ended
deriving DecidableEq, Repr

/-- Transition table of the observable supervision protocol. -/
def phaseStep : SupPhase → RunEvent → Option SupPhase
  | .created, .beginSupervision => some .supervising
  | .supervising, .spawnOk => some .spawned
  | .supervising, .spawnError _ => some .errored
  | .spawned, .chunk _ => some .spawned
  | .spawned, .procClose _ => some .ended
  | .errored, .procClose none => some .ended
  | _, _ => none

/-- Run the supervision protocol automaton over a trace. -/
def runPhase : SupPhase → List RunEvent → Option SupPhase
  | p, [] => some p
  | p, e :: es =>
      match phaseStep p e with
      | some q => runPhase q es
      | none => none

/-- A trace of supervision events is valid when it is an observable
point of the protocol above (prefixes included: a trace may stop at any
moment). -/
def validRunTrace (t : List RunEvent) : Bool :=
  (runPhase .created t).isSome

/-- Initial supervision state of a freshly created run: its registry
record, with nothing broadcast yet. -/
def supInit (r : Run) : SupState := { run := r, log := [] }

/-- Final supervision state after a trace of events. -/
def supRun (r : Run) (t : List RunEvent) : SupState :=
  t.foldl applyRunEvent (supInit r)

/-- The successive values taken by the `status` field of a run along a
trace of supervision events (including the initial value). -/
def statusTrace (r : Run) (t : List RunEvent) : List Status :=
  (List.scanl applyRunEvent (supInit r) t).map (fun s => s.run.status)

/-- The transitions the specification allows for the `status` field:
staying put, `queued → running`, or `running → {done, failed}`. -/
def specStep (a b : Status) : Prop :=
  a = b ∨ (a = .queued ∧ b = .running) ∨
    (a = .running ∧ (b = .done ∨ b = .failed))

/-- Link between the protocol phase and the `status` field: the status a
run record holds while its supervision is in a given phase. -/
def phaseInv (p : SupPhase) (s : SupState) : Prop :=
  match p with
  | .created => s.run.status = .queued
  | .supervising => s.run.status = .running
  | .spawned => s.run.status = .running
  | .errored => s.run.status = .failed
  | .ended => s.run.status = .done ∨ s.run.status = .failed

theorem phaseInv_step {p q : SupPhase} {e : RunEvent} {s : SupState}
    (hstep : phaseStep p e = some q) (hinv : phaseInv p s) :
    phaseInv q (applyRunEvent s e) := by
  cases e with
  | beginSupervision =>
      cases p <;> simp_all [phaseStep] <;>
        (cases hstep; simp_all [phaseInv, applyRunEvent])
  | spawnOk =>
      cases p <;> simp_all [phaseStep] <;>
        (cases hstep; simp_all [phaseInv, applyRunEvent])
  | chunk d =>
      cases p <;> simp_all [phaseStep] <;>
        (cases hstep; simp_all [phaseInv, applyRunEvent])
  | spawnError m =>
      cases p <;> simp_all [phaseStep] <;>
        (cases hstep; simp_all [phaseInv, applyRunEvent])
  | procClose c =>
      cases c with
      | none =>
          cases p <;> simp_all [phaseStep] <;>
            (cases hstep; simp_all [phaseInv, applyRunEvent])
      | some k =>
          cases p <;> simp_all [phaseStep] <;>
            (cases hstep; by_cases hk : k = 0 <;>
              simp_all [phaseInv, applyRunEvent])

theorem specStep_step {p q : SupPhase} {e : RunEvent} {s : SupState}
    (hstep : phaseStep p e = some q) (hinv : phaseInv p s) :
    specStep s.run.status (applyRunEvent s e).run.status := by
  cases e with
  | beginSupervision =>
      cases p <;> simp_all [phaseStep] <;>
        (cases hstep; simp_all [phaseInv, applyRunEvent, specStep])
  | spawnOk =>
      cases p <;> simp_all [phaseStep] <;>
        (cases hstep; simp_all [phaseInv, applyRunEvent, specStep])
  | chunk d =>
      cases p <;> simp_all [phaseStep] <;>
        (cases hstep; simp_all [phaseInv, applyRunEvent, specStep])
  | spawnError m =>
      cases p <;> simp_all [phaseStep] <;>
        (cases hstep; simp_all [phaseInv, applyRunEvent, specStep])
  | procClose c =>
      cases c with
      | none =>
          cases p <;> simp_all [phaseStep] <;>
            (cases hstep; simp_all [phaseInv, applyRunEvent, specStep])
      | some k =>
          cases p <;> simp_all [phaseStep] <;>
            (cases hstep; by_cases hk : k = 0 <;>
              simp_all [phaseInv, applyRunEvent, specStep])

theorem head?_scanl {α β : Type} (f : β → α → β) (b : β) (l : List α) :
    (List.scanl f b l).head? = some b := by
  cases l <;> simp [List.scanl]

theorem chain_statusTrace_aux :
    ∀ (t : List RunEvent) (p : SupPhase) (s : SupState),
      (runPhase p t).isSome = true → phaseInv p s →
      List.Chain' specStep
        ((List.scanl applyRunEvent s t).map (fun x => x.run.status)) := by
  intro t
  induction t with
  | nil =>
      intro p s _ _
      simp [List.scanl]
  | cons e es ih =>
      intro p s hrun hinv
      rw [runPhase] at hrun
      cases hstep : phaseStep p e with
      | none => rw [hstep] at hrun; simp at hrun
      | some q =>
          rw [hstep] at hrun
          rw [List.scanl]
          rw [List.map_cons, List.chain'_cons']
          constructor
          · intro y hy
            rw [List.head?_map, head?_scanl] at hy
            simp at hy
            rw [← hy]
            exact specStep_step hstep hinv
          · exact ih q (applyRunEvent s e) hrun (phaseInv_step hstep hinv)

/-- C1: for every created run, the `status` field transitions only along
the path `queued → running → {done, failed}` (in fact the code never
takes the `queued → failed` shortcut the claim would additionally allow
on spawn failure), and once `done` or `failed` is reached no later
supervision event ever changes the status value again: every consecutive
pair of statuses along any valid supervision trace either is equal or is
`queued → running`, `running → done` or `running → failed`. -/
theorem runCypress_status_path (id : String) (now : Nat)
    (url : Option String) (fn : String) (pp : RunPaths)
    (t : List RunEvent) (hvalid : validRunTrace t = true) :
    List.Chain' specStep (statusTrace (initialRun id now url fn pp) t) := by
  apply chain_statusTrace_aux t .created
  · exact hvalid
  · simp [phaseInv, supInit, initialRun]

/-- Witness for `runCypress_status_path` at a concrete complete trace
(spawn succeeds, one output chunk, exit code 1). -/
theorem runCypress_status_path_witness :
    validRunTrace
        [RunEvent.beginSupervision, RunEvent.spawnOk, RunEvent.chunk "out",
          RunEvent.procClose (some 1)] = true ∧
      List.Chain' specStep
        (statusTrace (initialRun "r" 0 none "demo.cy.js" ⟨"runs/r", "runs/r/work"⟩)
          [RunEvent.beginSupervision, RunEvent.spawnOk, RunEvent.chunk "out",
            RunEvent.procClose (some 1)]) :=
  ⟨by decide,
    runCypress_status_path "r" 0 none "demo.cy.js" ⟨"runs/r", "runs/r/work"⟩
      [RunEvent.beginSupervision, RunEvent.spawnOk, RunEvent.chunk "out",
        RunEvent.procClose (some 1)] (by decide)⟩

/-- Link between the protocol phase and the recorded exit code: until the
`close` handler has run, no exit code is recorded; after it, the recorded
exit code classifies the status. -/
def exitInv (p : SupPhase) (s : SupState) : Prop :=
  match p with
  | .ended => ∀ k : Int, s.run.exitCode = some k → (s.run.status = .done ↔ k = 0)
  | _ => s.run.exitCode = none

theorem exitInv_step {p q : SupPhase} {e : RunEvent} {s : SupState}
    (hstep : phaseStep p e = some q) (hinv : exitInv p s) :
    exitInv q (applyRunEvent s e) := by
  cases e with
  | beginSupervision =>
      cases p <;> simp_all [phaseStep] <;>
        (cases hstep; simp_all [exitInv, applyRunEvent])
  | spawnOk =>
      cases p <;> simp_all [phaseStep] <;>
        (cases hstep; simp_all [exitInv, applyRunEvent])
  | chunk d =>
      cases p <;> simp_all [phaseStep] <;>
        (cases hstep; simp_all [exitInv, applyRunEvent])
  | spawnError m =>
      cases p <;> simp_all [phaseStep] <;>
        (cases hstep; simp_all [exitInv, applyRunEvent])
  | procClose c =>
      cases c with
      | none =>
          cases p <;> simp_all [phaseStep] <;>
            (cases hstep; simp_all [exitInv, applyRunEvent])
      | some k =>
          cases p <;> simp_all [phaseStep] <;>
            (cases hstep; by_cases hk : k = 0 <;>
              simp_all [exitInv, applyRunEvent])

theorem exitCode_classifies_aux :
    ∀ (t : List RunEvent) (p : SupPhase) (s : SupState),
      (runPhase p t).isSome = true → exitInv p s →
      ∀ k : Int, (t.foldl applyRunEvent s).run.exitCode = some k →
        ((t.foldl applyRunEvent s).run.status = .done ↔ k = 0) := by
  intro t
  induction t with
  | nil =>
      intro p s _ hinv k hk
      cases p <;> simp_all [exitInv]
  | cons e es ih =>
      intro p s hrun hinv k hk
      rw [runPhase] at hrun
      cases hstep : phaseStep p e with
      | none => rw [hstep] at hrun; simp at hrun
      | some q =>
          rw [hstep] at hrun
          exact ih q (applyRunEvent s e) hrun (exitInv_step hstep hinv) k
            (by simpa using hk)

/-- C2: for every run whose supervised process terminates, the recorded
status is `done` if and only if the recorded exit code is `0`, and
`failed` for every other recorded exit code
(`run.status = code === 0 ? 'done' : 'failed'`,
src/server/index.js:178 and src/server/index-improved.js:348). -/
theorem runCypress_done_iff_exit_zero (id : String) (now : Nat)
    (url : Option String) (fn : String) (pp : RunPaths)
    (t : List RunEvent) (k : Int) (hvalid : validRunTrace t = true)
    (hcode : (supRun (initialRun id now url fn pp) t).run.exitCode = some k) :
    (supRun (initialRun id now url fn pp) t).run.status = .done ↔ k = 0 := by
  apply exitCode_classifies_aux t .created
  · exact hvalid
  · simp [exitInv, supInit, initialRun]
  · exact hcode

/-- Witness for `runCypress_done_iff_exit_zero` at a concrete successful
trace (exit code 0, status `done`). -/
theorem runCypress_done_iff_exit_zero_witness :
    validRunTrace
        [RunEvent.beginSupervision, RunEvent.spawnOk,
          RunEvent.procClose (some 0)] = true ∧
      (supRun (initialRun "r" 0 none "demo.cy.js" ⟨"runs/r", "runs/r/work"⟩)
          [RunEvent.beginSupervision, RunEvent.spawnOk,
            RunEvent.procClose (some 0)]).run.exitCode = some 0 ∧
      ((supRun (initialRun "r" 0 none "demo.cy.js" ⟨"runs/r", "runs/r/work"⟩)
          [RunEvent.beginSupervision, RunEvent.spawnOk,
            RunEvent.procClose (some 0)]).run.status = .done ↔ (0 : Int) = 0) :=
  ⟨by decide, by decide,
    runCypress_done_iff_exit_zero "r" 0 none "demo.cy.js"
      ⟨"runs/r", "runs/r/work"⟩
      [RunEvent.beginSupervision, RunEvent.spawnOk, RunEvent.procClose (some 0)]
      0 (by decide) (by decide)⟩

/-- A concrete run record as the `/start` handler creates it. -/
def run0 : Run :=
  initialRun "r" 0 none "demo.cy.js" ⟨"runs/r", "runs/r/work"⟩

/-- C3 counterexample: it is not the case that a run shows status
`running` only once its external process has actually been spawned.  The
trace consisting of the single event `beginSupervision` is a valid
observation point (`runCypress` has started executing but the `await
findConfigFile(...)` at src/server/index-improved.js:314 /
src/server/index.js:158 has not yet resumed, so `spawn` has not been
called), yet the run's status is already `running`, because
`run.status = 'running'` is the first statement of `runCypress`
(src/server/index.js:134, src/server/index-improved.js:289). -/
theorem runCypress_running_before_spawn_cex :
    validRunTrace [RunEvent.beginSupervision] = true ∧
      (supRun run0 [RunEvent.beginSupervision]).run.status = .running ∧
      ([RunEvent.beginSupervision].contains RunEvent.spawnOk) = false := by
  decide

/-- C3 (amended): the `queued → running` transition happens when the
supervision task begins executing, before the external process is
spawned; if the spawn then fails, the run transitions `running → failed`
(not `queued → failed`) in the improved server's `error` handler, the
failure reason is broadcast to subscribers as an `ERROR:` diagnostic
line, and no exit code is ever recorded for the run — nor is a
`RUN_DONE` termination marker broadcast, because the subsequent `close`
event carries a null exit code, on which the exit-code marker write
(`code.toString()`, src/server/index-improved.js:349) throws before the
broadcast at line 352. -/
theorem runCypress_spawn_failure_behavior (msg : String) :
    (validRunTrace [RunEvent.beginSupervision] = true ∧
      (supRun run0 [RunEvent.beginSupervision]).run.status = .running ∧
      RunEvent.spawnOk ∉ [RunEvent.beginSupervision]) ∧
    (validRunTrace
        [RunEvent.beginSupervision, RunEvent.spawnError msg,
          RunEvent.procClose none] = true ∧
      (supRun run0 [RunEvent.beginSupervision, RunEvent.spawnError msg,
          RunEvent.procClose none]).run.status = .failed ∧
      (supRun run0 [RunEvent.beginSupervision, RunEvent.spawnError msg,
          RunEvent.procClose none]).run.exitCode = none ∧
      (supRun run0 [RunEvent.beginSupervision, RunEvent.spawnError msg,
          RunEvent.procClose none]).log = ["ERROR: " ++ msg]) := by
  refine ⟨⟨by decide, by decide, by decide⟩,
      ⟨by simp [validRunTrace, runPhase, phaseStep], ?_, ?_, ?_⟩⟩ <;>
    simp [supRun, supInit, applyRunEvent, run0, initialRun]

/-! ### The server state: registry, subscriber sets, channel logs, disk -/

/-- Global mutable state of the server process: the `runs` map
(src/server/index.js:17), the `clients` map of live SSE sinks per run id
(src/server/index.js:104), the per-run log of broadcast payloads (what
every subscriber of that run is sent), and the set of directories
existing on disk (each entry one directory path). -/
structure ServerState where
  runs : List (String × Run)
  clients : List (String × List Nat)
  msgs : List (String × List String)
  fsDirs : List String
deriving DecidableEq, Repr

/-- `runs.get(id)` on the registry map. -/
def findRun (runs : List (String × Run)) (id : String) : Option Run :=
  (runs.find? (fun p => p.1 == id)).map (fun p => p.2)

/-- The list stored under a key in an association-list map, `[]` when the
key is absent (`clients.get(runId) || []`, src/server/index.js:128). -/
def getEntry {α : Type} (m : List (String × List α)) (id : String) : List α :=
  ((m.find? (fun p => p.1 == id)).map (fun p => p.2)).getD []

/-- Append values under a key, creating the entry when absent — the
`if (!clients.has(runId)) clients.set(runId, []); clients.get(runId).push(res)`
idiom of the stream handler (src/server/index.js:114-117) and the
delivery of a broadcast payload to a run's channel. -/
def appendEntry {α : Type} (m : List (String × List α)) (id : String)
    (xs : List α) : List (String × List α) :=
  if (m.find? (fun p => p.1 == id)).isSome then
    m.map (fun p => if p.1 == id then (p.1, p.2 ++ xs) else p)
  else m ++ [(id, xs)]

/-- An error response sent by an Express handler. -/
structure ErrResp where
  status : Nat
  error : String
deriving DecidableEq, Repr

/-- The 404 response of `/runs/:id/stream` in the improved server
(src/server/index-improved.js:242-245). -/
def runNotFound : ErrResp := { status := 404, error := "Run not found" }

/-- The `/runs/:id/stream` handler of the improved server
(src/server/index-improved.js:238-266): rejects with a 404 when the run
id is not in the registry (`if (!runs.has(runId))`), otherwise registers
the sink in the `clients` map.  The sink is identified by a number. -/
def streamImproved (s : ServerState) (runId : String) (sink : Nat) :
    Except ErrResp ServerState :=
  if (findRun s.runs runId).isSome then
    .ok { s with clients := appendEntry s.clients runId [sink] }
  else
    .error runNotFound

/-- The `/runs/:id/stream` handler of the original server
(src/server/index.js:106-123): it performs no registry check at all —
it immediately writes the 200 SSE headers and registers the sink, for
any run id whatsoever. -/
def streamOrig (s : ServerState) (runId : String) (sink : Nat) :
    ServerState :=
  { s with clients := appendEntry s.clients runId [sink] }

/-- A server state with an empty registry. -/
def emptyState : ServerState :=
  { runs := [], clients := [], msgs := [], fsDirs := [] }

/-- C6 counterexample: in the original server, subscribing to a run id
that does not exist in the registry does not fail with a not-found
response — the handler opens the stream and registers the sink (here
sink `7` ends up subscribed to the nonexistent run `"nope"`), because
src/server/index.js:106-123 never consults the `runs` map.  The claim
that such a subscription fails is therefore false of the original
server. -/
theorem stream_orig_unknown_id_cex :
    findRun emptyState.runs "nope" = none ∧
      getEntry (streamOrig emptyState "nope" 7).clients "nope" = [7] := by
  decide

/-- C6 (amended, for the improved server): subscribing succeeds exactly
when the run id is present in the registry — a nonexistent id is
rejected with the 404 not-found response and no sink is registered,
while an id whose run is present succeeds even when that run has already
finished (presence in the registry is the only condition; terminal runs
stay in the registry until the retention sweep removes them). -/
theorem stream_improved_subscribe_spec (s : ServerState) (runId : String)
    (sink : Nat) :
    (findRun s.runs runId = none →
        streamImproved s runId sink = .error runNotFound) ∧
    (∀ run : Run, findRun s.runs runId = some run →
        streamImproved s runId sink =
          .ok { s with clients := appendEntry s.clients runId [sink] }) := by
  constructor
  · intro h
    simp [streamImproved, h]
  · intro run h
    simp [streamImproved, h]

/-- Witness for `stream_improved_subscribe_spec`: a registry holding one
already-finished run; subscribing to it succeeds, subscribing to an
unknown id fails with the 404 response. -/
theorem stream_improved_subscribe_spec_witness :
    (streamImproved
        { runs := [("r", { run0 with status := .done, exitCode := some 0 })],
          clients := [], msgs := [], fsDirs := [] } "r" 3 =
      .ok { runs := [("r", { run0 with status := .done, exitCode := some 0 })],
            clients := [("r", [3])], msgs := [], fsDirs := [] }) ∧
    streamImproved emptyState "ghost" 3 = .error runNotFound :=
  ⟨by
    have h := (stream_improved_subscribe_spec
        { runs := [("r", { run0 with status := .done, exitCode := some 0 })],
          clients := [], msgs := [], fsDirs := [] } "r" 3).2
        { run0 with status := .done, exitCode := some 0 } (by decide)
    exact h.trans rfl,
   by
    exact (stream_improved_subscribe_spec emptyState "ghost" 3).1 (by decide)⟩

/-! ### Multi-run supervision and fault isolation -/

/-- A supervision event tagged with the run it belongs to. -/
inductive Event where
  | beginSupervision (runId : String)
  | spawnOk (runId : String)
  | chunk (runId : String) (data : String)
  | spawnError (runId : String) (msg : String)
  | procClose (runId : String) (code : Option Int)
deriving DecidableEq, Repr

/-- The run a supervision event belongs to. -/
def eventRun : Event → String
  | .beginSupervision i => i
  | .spawnOk i => i
  | .chunk i _ => i
  | .spawnError i _ => i
  | .procClose i _ => i

/-- Update the registry record stored under one id, leaving every other
entry untouched (the handlers operate on `runs.get(runId)` only). -/
def updateRunEntry (runs : List (String × Run)) (id : String)
    (f : Run → Run) : List (String × Run) :=
  runs.map (fun p => if p.1 == id then (p.1, f p.2) else p)

/-- Whether a supervision event is fatal to the server process: the
`close` event carrying a null exit code (the close that follows a
failed spawn).  Its handler first assigns `run.status`
(src/server/index-improved.js:348) and then evaluates
`code.toString()` (line 349), which throws a TypeError on the null
code; nothing catches an exception thrown inside the `close` listener
(the `try`/`catch` of `runCypress` has long since returned), so the
uncaught exception terminates the whole Node process. -/
def fatalEvent : Event → Bool
  | .procClose _ none => true
  | _ => false

/-- The improved server process: its state, and whether the Node
process is still alive. -/
structure ImprovedServer where
  state : ServerState
  alive : Bool
deriving DecidableEq, Repr

/-- Effect of one supervision event on the improved server, following
`runCypress` of src/server/index-improved.js:281-372 (whose handlers
include the child-process `error` listener): each handler reads and
mutates only the record stored under its own run id and broadcasts
only on that run's channel.  The `close` event with a null exit code
records the status assignment of line 348 and then kills the process
(`fatalEvent`): the exit-code marker write at line 349 throws an
uncaught TypeError on the null code.  A dead process applies no
further events. -/
def applyEvent (o : ImprovedServer) (e : Event) : ImprovedServer :=
  if o.alive then
    match e with
    | .beginSupervision i =>
        let newRuns :=
          updateRunEntry o.state.runs i (fun r => { r with status := .running })
        { o with state := { o.state with runs := newRuns } }
    | .spawnOk _ => o
    | .chunk i d =>
        { o with state :=
            { o.state with msgs := appendEntry o.state.msgs i [d] } }
    | .spawnError i m =>
        let newRuns :=
          updateRunEntry o.state.runs i (fun r => { r with status := .failed })
        let newMsgs := appendEntry o.state.msgs i ["ERROR: " ++ m]
        { o with state := { o.state with runs := newRuns, msgs := newMsgs } }
    | .procClose i c =>
        let st := if c = some 0 then Status.done else Status.failed
        match c with
        | some k =>
            let newRuns := updateRunEntry o.state.runs i
              (fun r => { r with status := st, exitCode := some k })
            let newMsgs := appendEntry o.state.msgs i [runDoneLine st k]
            { o with state := { o.state with runs := newRuns, msgs := newMsgs } }
        | none =>
            let newRuns :=
              updateRunEntry o.state.runs i (fun r => { r with status := st })
            { state := { o.state with runs := newRuns }, alive := false }
  else o

/-- `GET /runs/:id` as observed by a client of the improved server: the
record is served only while the server process is alive. -/
def improvedGetRun (o : ImprovedServer) (id : String) : Option Run :=
  if o.alive then findRun o.state.runs id else none

theorem find?_key_map_update {β : Type} (m : List (String × β)) (i id : String)
    (g : β → β) (h : i ≠ id) :
    (List.map (fun p => if p.1 == i then (p.1, g p.2) else p) m).find?
        (fun p => p.1 == id) = m.find? (fun p => p.1 == id) := by
  induction m with
  | nil => rfl
  | cons p rest ih =>
      rw [List.map_cons]
      by_cases hp : p.1 = i
      · rw [if_pos (by simpa using hp)]
        rw [List.find?_cons_of_neg _ (by simp [hp]; exact h),
          List.find?_cons_of_neg _ (by simp [hp]; exact h)]
        exact ih
      · rw [if_neg (by simpa using hp)]
        by_cases hid : p.1 = id
        · rw [List.find?_cons_of_pos _ (by simpa using hid),
            List.find?_cons_of_pos _ (by simpa using hid)]
        · rw [List.find?_cons_of_neg _ (by simpa using hid),
            List.find?_cons_of_neg _ (by simpa using hid)]
          exact ih

theorem find?_key_append_single {β : Type} (m : List (String × β))
    (i id : String) (x : β) (h : i ≠ id) :
    (m ++ [(i, x)]).find? (fun p => p.1 == id) =
      m.find? (fun p => p.1 == id) := by
  induction m with
  | nil =>
      rw [List.nil_append]
      rw [List.find?_cons_of_neg _ (by simp; exact h)]
  | cons p rest ih =>
      rw [List.cons_append]
      by_cases hid : p.1 = id
      · rw [List.find?_cons_of_pos _ (by simpa using hid),
          List.find?_cons_of_pos _ (by simpa using hid)]
      · rw [List.find?_cons_of_neg _ (by simpa using hid),
          List.find?_cons_of_neg _ (by simpa using hid)]
        exact ih

theorem findRun_updateRunEntry_ne (runs : List (String × Run))
    (i id : String) (f : Run → Run) (h : i ≠ id) :
    findRun (updateRunEntry runs i f) id = findRun runs id := by
  unfold findRun updateRunEntry
  rw [find?_key_map_update runs i id f h]

theorem getEntry_appendEntry_ne {α : Type} (m : List (String × List α))
    (i id : String) (xs : List α) (h : i ≠ id) :
    getEntry (appendEntry m i xs) id = getEntry m id := by
  unfold getEntry appendEntry
  by_cases hmem : (m.find? (fun p => p.1 == i)).isSome
  · rw [if_pos hmem, find?_key_map_update m i id (fun l => l ++ xs) h]
  · rw [if_neg hmem, find?_key_append_single m i id xs h]

/-- C8 (amended): in the improved server every supervision event of one
run — including the spawn-failure `error` event, which its listener
handles — mutates only that run's registry record and broadcast
channel: every other run's record, channel log, subscriber list and
on-disk directories are exactly as they were.  Service-wide isolation
still fails, exactly as in the original server: the `close` event that
follows a failed spawn carries a null exit code, the close handler's
exit-code write throws an uncaught TypeError, and the process dies
(`alive` becomes false and stays false), after which no run — here the
unrelated run `id` — can be queried at all. -/
theorem applyEvent_frame (o : ImprovedServer) (e : Event) (id : String)
    (h : eventRun e ≠ id) :
    findRun (applyEvent o e).state.runs id = findRun o.state.runs id ∧
      getEntry (applyEvent o e).state.msgs id = getEntry o.state.msgs id ∧
      (applyEvent o e).state.clients = o.state.clients ∧
      (applyEvent o e).state.fsDirs = o.state.fsDirs ∧
      (applyEvent o e).alive = (o.alive && !fatalEvent e) ∧
      (fatalEvent e = true → improvedGetRun (applyEvent o e) id = none) := by
  by_cases halive : o.alive = true
  · cases e with
    | beginSupervision i =>
        have happ : applyEvent o (Event.beginSupervision i) =
            { o with state := { o.state with
                runs := updateRunEntry o.state.runs i
                  (fun r => { r with status := .running }) } } := by
          unfold applyEvent
          rw [if_pos halive]
        rw [happ]
        exact ⟨findRun_updateRunEntry_ne o.state.runs i id
            (fun r => { r with status := .running }) h, rfl, rfl, rfl,
          by simp [fatalEvent, halive], by intro hf; simp [fatalEvent] at hf⟩
    | spawnOk i =>
        have happ : applyEvent o (Event.spawnOk i) = o := by
          unfold applyEvent
          rw [if_pos halive]
        rw [happ]
        exact ⟨rfl, rfl, rfl, rfl, by simp [fatalEvent, halive],
          by intro hf; simp [fatalEvent] at hf⟩
    | chunk i d =>
        have happ : applyEvent o (Event.chunk i d) =
            { o with state := { o.state with
                msgs := appendEntry o.state.msgs i [d] } } := by
          unfold applyEvent
          rw [if_pos halive]
        rw [happ]
        exact ⟨rfl, getEntry_appendEntry_ne o.state.msgs i id [d] h, rfl, rfl,
          by simp [fatalEvent, halive], by intro hf; simp [fatalEvent] at hf⟩
    | spawnError i m =>
        have happ : applyEvent o (Event.spawnError i m) =
            { o with state := { o.state with
                runs := updateRunEntry o.state.runs i
                  (fun r => { r with status := .failed }),
                msgs := appendEntry o.state.msgs i ["ERROR: " ++ m] } } := by
          unfold applyEvent
          rw [if_pos halive]
        rw [happ]
        exact ⟨findRun_updateRunEntry_ne o.state.runs i id
            (fun r => { r with status := .failed }) h,
          getEntry_appendEntry_ne o.state.msgs i id ["ERROR: " ++ m] h, rfl, rfl,
          by simp [fatalEvent, halive], by intro hf; simp [fatalEvent] at hf⟩
    | procClose i c =>
        cases c with
        | some k =>
            have happ : applyEvent o (Event.procClose i (some k)) =
                { o with state := { o.state with
                    runs := updateRunEntry o.state.runs i
                      (fun r => { r with
                        status := if (some k : Option Int) = some 0 then
                            Status.done
                          else Status.failed,
                        exitCode := some k }),
                    msgs := appendEntry o.state.msgs i
                      [runDoneLine
                        (if (some k : Option Int) = some 0 then Status.done
                          else Status.failed) k] } } := by
              unfold applyEvent
              rw [if_pos halive]
            rw [happ]
            exact ⟨findRun_updateRunEntry_ne o.state.runs i id
                (fun r => { r with
                  status := if (some k : Option Int) = some 0 then Status.done
                    else Status.failed,
                  exitCode := some k }) h,
              getEntry_appendEntry_ne o.state.msgs i id
                [runDoneLine
                  (if (some k : Option Int) = some 0 then Status.done
                    else Status.failed) k] h, rfl, rfl,
              by simp [fatalEvent, halive], by intro hf; simp [fatalEvent] at hf⟩
        | none =>
            have happ : applyEvent o (Event.procClose i none) =
                { state := { o.state with
                    runs := updateRunEntry o.state.runs i
                      (fun r => { r with
                        status := if (none : Option Int) = some 0 then
                            Status.done
                          else Status.failed }) },
                  alive := false } := by
              unfold applyEvent
              rw [if_pos halive]
            rw [happ]
            exact ⟨findRun_updateRunEntry_ne o.state.runs i id
                (fun r => { r with
                  status := if (none : Option Int) = some 0 then Status.done
                    else Status.failed }) h, rfl, rfl,
              rfl, by simp [fatalEvent], fun _ => by simp [improvedGetRun]⟩
  · have hdead : applyEvent o e = o := by
      unfold applyEvent
      rw [if_neg halive]
    have hfalse : o.alive = false := by simpa using halive
    rw [hdead]
    exact ⟨rfl, rfl, rfl, rfl, by simp [hfalse],
      fun _ => by simp [improvedGetRun, hfalse]⟩

/-- A registry record for a second, unrelated run. -/
def runB : Run :=
  initialRun "b" 1 none "other.cy.js" ⟨"runs/b", "runs/b/work"⟩

/-- A registry record for a run `"a"` that is currently running. -/
def runA : Run :=
  { run0 with
      id := "a"
      status := .running
      paths := ⟨"runs/a", "runs/a/work"⟩ }

/-- A server state holding two independent runs `"a"` (running) and
`"b"` (queued). -/
def twoRunState : ServerState :=
  { runs := [("a", runA), ("b", runB)],
    clients := [], msgs := [],
    fsDirs := ["runs/a", "runs/a/work", "runs/b", "runs/b/work"] }

/-- The improved server holding the two runs of `twoRunState`, alive. -/
def twoRunServer : ImprovedServer := { state := twoRunState, alive := true }

/-- Witness for `applyEvent_frame`: the handled spawn-failure `error`
event of run `"a"` leaves run `"b"`'s record and channel untouched,
while the null-code `close` event that follows kills the process and
makes run `"b"` unavailable. -/
theorem applyEvent_frame_witness :
    eventRun (Event.spawnError "a" "spawn cypress ENOENT") ≠ "b" ∧
      findRun (applyEvent twoRunServer
          (Event.spawnError "a" "spawn cypress ENOENT")).state.runs "b" =
        findRun twoRunServer.state.runs "b" ∧
      getEntry (applyEvent twoRunServer
          (Event.spawnError "a" "spawn cypress ENOENT")).state.msgs "b" =
        getEntry twoRunServer.state.msgs "b" ∧
      (applyEvent twoRunServer (Event.procClose "a" none)).alive =
        (twoRunServer.alive && !fatalEvent (Event.procClose "a" none)) ∧
      improvedGetRun (applyEvent twoRunServer (Event.procClose "a" none)) "b" =
        none :=
  ⟨by decide,
    (applyEvent_frame twoRunServer (Event.spawnError "a" "spawn cypress ENOENT")
      "b" (by decide)).1,
    (applyEvent_frame twoRunServer (Event.spawnError "a" "spawn cypress ENOENT")
      "b" (by decide)).2.1,
    (applyEvent_frame twoRunServer (Event.procClose "a" none)
      "b" (by decide)).2.2.2.2.1,
    (applyEvent_frame twoRunServer (Event.procClose "a" none)
      "b" (by decide)).2.2.2.2.2 (by decide)⟩

/-- The child-process events the original server attaches listeners to:
`runCypress` in src/server/index.js registers handlers for stdout
`data` (line 167), stderr `data` (line 172) and `close` (line 177) only
— no listener for the `error` event is ever attached. -/
def origChildListeners : List String := ["stdout.data", "stderr.data", "close"]

/-- The original server process: its state, and whether the Node process
is still alive. -/
structure OrigServer where
  state : ServerState
  alive : Bool
deriving DecidableEq, Repr

/-- One supervision event applied to the original server
(src/server/index.js).  The handler effects are those of `runCypress`
there (the `chunk` broadcast additionally strips escape sequences, which
is irrelevant here and modeled at the channel level elsewhere); the
`error` event of a failed spawn is dispatched per Node.js EventEmitter
semantics: when an `error` event is emitted and no `error` listener is
registered, the error is thrown, which terminates the whole Node
process — and `origChildListeners` (taken from the source) contains no
`error` listener.  A `close` event with a null exit code is likewise
fatal: `code.toString()` at src/server/index.js:179 throws an uncaught
TypeError after the status assignment of line 178.  A dead process
applies no further events. -/
def applyEventOrig (o : OrigServer) (e : Event) : OrigServer :=
  if o.alive then
    match e with
    | .spawnError _ _ =>
        if origChildListeners.contains "error" then o
        else { o with alive := false }
    | .beginSupervision i =>
        let newRuns :=
          updateRunEntry o.state.runs i (fun r => { r with status := .running })
        { o with state := { o.state with runs := newRuns } }
    | .spawnOk _ => o
    | .chunk i d =>
        { o with state :=
            { o.state with msgs := appendEntry o.state.msgs i [d] } }
    | .procClose i c =>
        let st := if c = some 0 then Status.done else Status.failed
        match c with
        | some k =>
            let newRuns := updateRunEntry o.state.runs i
              (fun r => { r with status := st, exitCode := some k })
            let newMsgs := appendEntry o.state.msgs i [runDoneLine st k]
            { o with state := { o.state with runs := newRuns, msgs := newMsgs } }
        | none =>
            let newRuns :=
              updateRunEntry o.state.runs i (fun r => { r with status := st })
            { state := { o.state with runs := newRuns }, alive := false }
  else o

/-- `GET /runs/:id` as observed by a client of the original server: the
record is served only while the server process is alive. -/
def origGetRun (o : OrigServer) (id : String) : Option Run :=
  if o.alive then findRun o.state.runs id else none

/-- C8 counterexample: in the original server an error intrinsic to one
run does affect every other run.  With two independent runs `"a"` and
`"b"`, a spawn failure of run `"a"` emits a child-process `error` event;
src/server/index.js registers no `error` listener, so Node throws the
error and the server process dies, after which run `"b"`'s record —
available before — can no longer be queried at all. -/
theorem spawn_error_crashes_orig_cex :
    origGetRun { state := twoRunState, alive := true } "b" = some runB ∧
      origGetRun
        (applyEventOrig { state := twoRunState, alive := true }
          (Event.spawnError "a" "spawn cypress ENOENT")) "b" = none := by
  decide

/-! ### Retention sweeper -/

/-- The comparator of `cleanupOldRuns`
(`(a, b) => b[1].createdAt - a[1].createdAt`,
src/server/index-improved.js:466): entry `a` precedes entry `b` when
`b`'s creation time is at most `a`'s, i.e. the array is sorted newest
first. -/
def byCreatedDesc (a b : String × Run) : Prop :=
  b.2.createdAt ≤ a.2.createdAt

instance : DecidableRel byCreatedDesc := fun a b =>
  inferInstanceAs (Decidable (b.2.createdAt ≤ a.2.createdAt))

instance : IsTotal (String × Run) byCreatedDesc :=
  ⟨fun a b => Nat.le_total b.2.createdAt a.2.createdAt⟩

instance : IsTrans (String × Run) byCreatedDesc :=
  ⟨fun _ _ _ hab hbc => Nat.le_trans hbc hab⟩

/-- The entries `cleanupOldRuns` deletes: everything past the configured
maximum in the newest-first sorted array
(`runsArray.slice(config.upload.maxRunsRetention)`,
src/server/index-improved.js:469). -/
def evictList (maxRuns : Nat) (s : ServerState) : List (String × Run) :=
  (List.insertionSort byCreatedDesc s.runs).drop maxRuns

/-- Whether a registry entry survives the sweep: true when its id is not
among the deleted entries (`runs.delete(runId)` is called for each
deleted entry, src/server/index-improved.js:474). -/
def keepPred (maxRuns : Nat) (s : ServerState) (p : String × Run) : Bool :=
  ((evictList maxRuns s).find? (fun q => q.1 == p.1)).isNone

/-- Whether `s` starts with `p`, computed on the character sequences
(used to say a path lies below a removed directory). -/
def startsWithStr (s p : String) : Bool := s.data.take p.data.length == p.data

/-- Whether an on-disk directory survives the sweep: true unless it is
the `runPath` of a deleted entry or lies below it
(`fs.rmSync(run.paths.runPath, { recursive: true, force: true })`,
src/server/index-improved.js:473). -/
def keepDirPred (maxRuns : Nat) (s : ServerState) (d : String) : Bool :=
  ((evictList maxRuns s).find? (fun q =>
    q.2.paths.runPath == d ||
      startsWithStr d (q.2.paths.runPath ++ "/"))).isNone

/-- `cleanupOldRuns` (src/server/index-improved.js:463-484): sort all
registry entries newest-first by `createdAt` (JavaScript
`Array.prototype.sort` is stable; `List.insertionSort` is the stable
sort by the same comparator), and if the count exceeds the configured
maximum (`config.upload.maxRunsRetention`), delete every entry beyond
the maximum: `fs.rmSync(run.paths.runPath, { recursive: true })`
removes the run's directory tree — its `runPath` and everything below
it — and `runs.delete(runId)` removes the registry entry.  The
function never consults a run's `status`. -/
def cleanupOldRuns (maxRuns : Nat) (s : ServerState) : ServerState :=
  if maxRuns < (List.insertionSort byCreatedDesc s.runs).length then
    { s with
        runs := s.runs.filter (keepPred maxRuns s)
        fsDirs := s.fsDirs.filter (keepDirPred maxRuns s) }
  else s

theorem sorted_fst_nodup (s : ServerState)
    (h : (s.runs.map Prod.fst).Nodup) :
    ((List.insertionSort byCreatedDesc s.runs).map Prod.fst).Nodup :=
  (((List.perm_insertionSort byCreatedDesc s.runs).map Prod.fst).nodup_iff).mpr h

theorem take_drop_fst_disjoint (maxRuns : Nat) (s : ServerState)
    (h : (s.runs.map Prod.fst).Nodup) :
    List.Disjoint
      (((List.insertionSort byCreatedDesc s.runs).take maxRuns).map Prod.fst)
      ((evictList maxRuns s).map Prod.fst) := by
  apply List.disjoint_of_nodup_append
  unfold evictList
  rw [← List.map_append, List.take_append_drop]
  exact sorted_fst_nodup s h

theorem cleanup_keeps_pred (maxRuns : Nat) (s : ServerState)
    (h : (s.runs.map Prod.fst).Nodup) :
    ∀ p ∈ (List.insertionSort byCreatedDesc s.runs).take maxRuns,
      keepPred maxRuns s p = true := by
  intro p hp
  unfold keepPred
  rw [Option.isNone_iff_eq_none, List.find?_eq_none]
  intro q hq hbeq
  have hqp : q.1 = p.1 := by simpa using hbeq
  exact take_drop_fst_disjoint maxRuns s h
    (List.mem_map_of_mem Prod.fst hp)
    (hqp ▸ List.mem_map_of_mem Prod.fst hq)

theorem cleanup_drops_pred (maxRuns : Nat) (s : ServerState) :
    ∀ p ∈ evictList maxRuns s, keepPred maxRuns s p = false := by
  intro p hp
  unfold keepPred
  cases hfind : (evictList maxRuns s).find? (fun q => q.1 == p.1) with
  | none =>
      have : ((evictList maxRuns s).find? (fun q => q.1 == p.1)).isSome = true :=
        List.find?_isSome.mpr ⟨p, hp, by simp⟩
      rw [hfind] at this
      simp at this
  | some q => rfl

/-- After a sweep that evicts, the surviving registry entries are a
permutation of the `maxRuns` newest-by-`createdAt` entries of the sorted
array. -/
theorem cleanup_runs_perm (maxRuns : Nat) (s : ServerState)
    (h : (s.runs.map Prod.fst).Nodup)
    (hgt : maxRuns < (List.insertionSort byCreatedDesc s.runs).length) :
    (cleanupOldRuns maxRuns s).runs.Perm
      ((List.insertionSort byCreatedDesc s.runs).take maxRuns) := by
  unfold cleanupOldRuns
  rw [if_pos hgt]
  refine List.Perm.trans
    (((List.perm_insertionSort byCreatedDesc s.runs).symm).filter
      (keepPred maxRuns s)) ?_
  have hfilters := @List.filter_append (String × Run) (keepPred maxRuns s)
    ((List.insertionSort byCreatedDesc s.runs).take maxRuns)
    ((List.insertionSort byCreatedDesc s.runs).drop maxRuns)
  rw [List.take_append_drop] at hfilters
  rw [hfilters]
  rw [List.filter_eq_self.mpr (cleanup_keeps_pred maxRuns s h)]
  have hnil : ((List.insertionSort byCreatedDesc s.runs).drop maxRuns).filter
      (keepPred maxRuns s) = [] := by
    rw [List.filter_eq_nil_iff]
    intro p hp hpred
    rw [cleanup_drops_pred maxRuns s p hp] at hpred
    exact absurd hpred (by simp)
  rw [hnil, List.append_nil]

/-- C5: after every completed sweep the surviving registry entries are
exactly (a permutation of) the `maxRuns` newest-by-`createdAt` entries
of the sorted registry — the whole registry when it does not exceed the
maximum — so the removed runs are exactly the oldest excess; the
registry then holds at most the configured maximum number of runs;
every evicted entry is at least as old (by `createdAt`) as every
surviving entry; and every evicted entry's on-disk directory no longer
exists.  The hypothesis that registry ids are pairwise distinct is an
invariant of the JavaScript `Map`, whose keys are unique. -/
theorem cleanupOldRuns_retention (maxRuns : Nat) (s : ServerState)
    (hnodup : (s.runs.map Prod.fst).Nodup) :
    (cleanupOldRuns maxRuns s).runs.Perm
        ((List.insertionSort byCreatedDesc s.runs).take maxRuns) ∧
      (cleanupOldRuns maxRuns s).runs.length ≤ maxRuns ∧
      ∀ p ∈ s.runs, p.1 ∉ (cleanupOldRuns maxRuns s).runs.map Prod.fst →
        (∀ q ∈ (cleanupOldRuns maxRuns s).runs,
            p.2.createdAt ≤ q.2.createdAt) ∧
          p.2.paths.runPath ∉ (cleanupOldRuns maxRuns s).fsDirs := by
  by_cases hgt : maxRuns < (List.insertionSort byCreatedDesc s.runs).length
  · have hperm := cleanup_runs_perm maxRuns s hnodup hgt
    refine ⟨hperm, ?_, ?_⟩
    · rw [hperm.length_eq, List.length_take]
      exact Nat.min_le_left _ _
    · intro p hps hnotin
      have hpS : p ∈ List.insertionSort byCreatedDesc s.runs :=
        (List.mem_insertionSort byCreatedDesc).mpr hps
      have hpK : p ∉ (List.insertionSort byCreatedDesc s.runs).take maxRuns := by
        intro hK
        exact hnotin (List.mem_map_of_mem Prod.fst (hperm.mem_iff.mpr hK))
      have hpD : p ∈ (List.insertionSort byCreatedDesc s.runs).drop maxRuns := by
        have hsplit : p ∈ (List.insertionSort byCreatedDesc s.runs).take maxRuns ++
            (List.insertionSort byCreatedDesc s.runs).drop maxRuns := by
          rw [List.take_append_drop]
          exact hpS
        rcases List.mem_append.mp hsplit with h1 | h2
        · exact absurd h1 hpK
        · exact h2
      constructor
      · intro q hq
        exact List.Sorted.rel_of_mem_take_of_mem_drop
          (List.sorted_insertionSort byCreatedDesc s.runs)
          (hperm.mem_iff.mp hq) hpD
      · intro hdmem
        have h1 : (cleanupOldRuns maxRuns s).fsDirs =
            s.fsDirs.filter (keepDirPred maxRuns s) := by
          unfold cleanupOldRuns
          rw [if_pos hgt]
        rw [h1] at hdmem
        have h2 := (List.mem_filter.mp hdmem).2
        have h3 : ((evictList maxRuns s).find? (fun q =>
            q.2.paths.runPath == p.2.paths.runPath ||
              startsWithStr (p.2.paths.runPath)
                (q.2.paths.runPath ++ "/"))).isSome = true :=
          List.find?_isSome.mpr ⟨p, hpD, by simp⟩
        unfold keepDirPred at h2
        rw [Option.isNone_iff_eq_none] at h2
        rw [h2] at h3
        simp at h3
  · have heq : cleanupOldRuns maxRuns s = s := by
      unfold cleanupOldRuns
      rw [if_neg hgt]
    rw [heq]
    have hle : (List.insertionSort byCreatedDesc s.runs).length ≤ maxRuns :=
      Nat.le_of_not_lt hgt
    refine ⟨?_, ?_, ?_⟩
    · rw [List.take_of_length_le hle]
      exact (List.perm_insertionSort byCreatedDesc s.runs).symm
    · have hlen : (List.insertionSort byCreatedDesc s.runs).length =
          s.runs.length := List.length_insertionSort byCreatedDesc s.runs
      omega
    · intro p hps hnotin
      exact absurd (List.mem_map_of_mem Prod.fst hps) hnotin

/-- Witness for `cleanupOldRuns_retention`: a registry of two runs swept
with a maximum of one. -/
theorem cleanupOldRuns_retention_witness :
    (twoRunState.runs.map Prod.fst).Nodup ∧
      (cleanupOldRuns 1 twoRunState).runs.Perm
        ((List.insertionSort byCreatedDesc twoRunState.runs).take 1) ∧
      (cleanupOldRuns 1 twoRunState).runs.length ≤ 1 :=
  ⟨by decide, (cleanupOldRuns_retention 1 twoRunState (by decide)).1,
    (cleanupOldRuns_retention 1 twoRunState (by decide)).2.1⟩

/-- C4 counterexample: the retention sweep does evict runs that are
still `queued` or `running`.  In `twoRunState`, run `"a"` is `running`
and is the oldest entry; sweeping with a maximum of `1` deletes it:
`cleanupOldRuns` (src/server/index-improved.js:463-484) selects victims
purely by position in the `createdAt`-sorted array and never consults
`status`. -/
theorem cleanupOldRuns_evicts_running_cex :
    (findRun twoRunState.runs "a").map Run.status = some .running ∧
      findRun (cleanupOldRuns 1 twoRunState).runs "a" = none ∧
      ((cleanupOldRuns 1 twoRunState).fsDirs.contains "runs/a") = false := by
  decide

/-- The result of rewriting every run's `status` field pointwise, used
to state that the sweep is blind to status. -/
def statusMap (f : Status → Status) (p : String × Run) : String × Run :=
  (p.1, { p.2 with status := f p.2.status })

/-- A server state with every registry entry's `status` rewritten. -/
def setStatuses (f : Status → Status) (s : ServerState) : ServerState :=
  { s with runs := s.runs.map (statusMap f) }

theorem orderedInsert_statusMap (f : Status → Status) :
    ∀ (l : List (String × Run)) (a : String × Run),
      List.orderedInsert byCreatedDesc (statusMap f a) (l.map (statusMap f)) =
        (List.orderedInsert byCreatedDesc a l).map (statusMap f) := by
  intro l
  induction l with
  | nil => intro a; rfl
  | cons b t ih =>
      intro a
      rw [List.map_cons, List.orderedInsert, List.orderedInsert]
      by_cases hab : byCreatedDesc a b
      · have hab' : byCreatedDesc (statusMap f a) (statusMap f b) := hab
        rw [if_pos hab, if_pos hab']
        rfl
      · have hab' : ¬ byCreatedDesc (statusMap f a) (statusMap f b) := hab
        rw [if_neg hab, if_neg hab']
        rw [List.map_cons, ih a]

theorem insertionSort_statusMap (f : Status → Status) :
    ∀ l : List (String × Run),
      List.insertionSort byCreatedDesc (l.map (statusMap f)) =
        (List.insertionSort byCreatedDesc l).map (statusMap f) := by
  intro l
  induction l with
  | nil => rfl
  | cons a t ih =>
      rw [List.map_cons, List.insertionSort, List.insertionSort, ih,
        orderedInsert_statusMap f]

/-- C4 (amended): the retention sweep selects the runs it evicts purely
by run count and `createdAt` order, never consulting `status`:
rewriting every run's status arbitrarily — in particular marking them
all `queued` or `running` — leaves the set of surviving run ids
unchanged, so an in-flight run among the oldest excess is evicted just
like a terminal one (`cleanupOldRuns_evicts_running_cex` exhibits such
an eviction). -/
theorem cleanupOldRuns_status_blind (maxRuns : Nat) (s : ServerState)
    (f : Status → Status) :
    (cleanupOldRuns maxRuns (setStatuses f s)).runs.map Prod.fst =
      (cleanupOldRuns maxRuns s).runs.map Prod.fst := by
  have hruns : (setStatuses f s).runs = s.runs.map (statusMap f) := rfl
  have hsort : List.insertionSort byCreatedDesc (setStatuses f s).runs =
      (List.insertionSort byCreatedDesc s.runs).map (statusMap f) := by
    rw [hruns, insertionSort_statusMap f]
  have hfst : (Prod.fst ∘ statusMap f) = (Prod.fst : String × Run → String) :=
    rfl
  have hev : evictList maxRuns (setStatuses f s) =
      (evictList maxRuns s).map (statusMap f) := by
    unfold evictList
    rw [hsort, List.map_drop]
  have hlen : (List.insertionSort byCreatedDesc (setStatuses f s).runs).length =
      (List.insertionSort byCreatedDesc s.runs).length := by
    rw [hsort, List.length_map]
  by_cases hgt : maxRuns < (List.insertionSort byCreatedDesc s.runs).length
  · have hgt' : maxRuns <
        (List.insertionSort byCreatedDesc (setStatuses f s).runs).length := by
      rw [hlen]
      exact hgt
    unfold cleanupOldRuns
    rw [if_pos hgt, if_pos hgt']
    show ((s.runs.map (statusMap f)).filter
        (keepPred maxRuns (setStatuses f s))).map Prod.fst = _
    rw [List.filter_map, List.map_map, hfst]
    congr 1
    apply List.filter_congr
    intro p _
    show keepPred maxRuns (setStatuses f s) (statusMap f p) = keepPred maxRuns s p
    unfold keepPred
    rw [hev, List.find?_map]
    have hcomp : ((fun q : String × Run => q.1 == (statusMap f p).1) ∘
        statusMap f) = (fun q : String × Run => q.1 == p.1) := rfl
    rw [hcomp]
    rw [Option.isNone_map']
  · have hgt' : ¬ maxRuns <
        (List.insertionSort byCreatedDesc (setStatuses f s).runs).length := by
      rw [hlen]
      exact hgt
    unfold cleanupOldRuns
    rw [if_neg hgt, if_neg hgt']
    rw [hruns, List.map_map, hfst]

/-! ### Escape-sequence stripping in the original broadcast

`broadcast` in src/server/index.js:125-130 computes
`cleanData = data.replace(/\x1B\[[0-9;]*[a-zA-Z]/g, '')
             .replace(/\x1B\[[\?]?[0-9;]*[a-zA-Z]/g, '')`
and writes `data: ${cleanData}\n\n` to every registered sink.  Each
`replace` is a left-to-right scan that removes every occurrence of a
CSI sequence: ESC, `[`, optionally `?` (second regex only), a run of
digits or semicolons, and one ASCII letter; matching is deterministic
here because no failed branch can be rescued by backtracking (a digit
given back would have to serve as the final letter).  `csiScan` below
performs that scan with an explicit automaton state: on a failed
partial match the pending characters are emitted and scanning resumes
at the character that broke the match, which is exactly where the
JavaScript regex engine finds the next possible match start (no pending
character other than the failing one can begin ESC-`[`). -/

/-- The ESC character, `\x1B`. -/
def escChar : Char := Char.ofNat 27

/-- The character class `[0-9;]` of the CSI parameter run. -/
def isCsiParam (c : Char) : Bool := c.isDigit || c == ';'

/-- Progress of a partial CSI match: after ESC, or after ESC-`[`
(with the optional `?` seen or not and the parameter characters
consumed so far). -/
inductive CsiPhase where
  | esc
  | par (sawQ : Bool) (ds : List Char)
deriving DecidableEq, Repr

/-- The characters tentatively consumed by a partial CSI match. -/
def pendingOf : CsiPhase → List Char
  | .esc => [escChar]
  | .par sawQ ds => [escChar, '['] ++ (if sawQ then ['?'] else []) ++ ds

/-- One global-replace pass of the CSI regex over the character list;
`q` tells whether the optional `?` after `[` is part of the pattern
(`true` for the second regex of `broadcast`, `false` for the first). -/
def csiScan (q : Bool) : Option CsiPhase → List Char → List Char
  | none, [] => []
  | some ph, [] => pendingOf ph
  | none, c :: rest =>
      if c = escChar then csiScan q (some .esc) rest
      else c :: csiScan q none rest
  | some .esc, c :: rest =>
      if c = '[' then csiScan q (some (.par false [])) rest
      else
        escChar :: (if c = escChar then csiScan q (some .esc) rest
          else c :: csiScan q none rest)
  | some (.par sawQ ds), c :: rest =>
      if isCsiParam c then csiScan q (some (.par sawQ (ds ++ [c]))) rest
      else if c.isAlpha then csiScan q none rest
      else if q && !sawQ && ds.isEmpty && c == '?' then
        csiScan q (some (.par true [])) rest
      else
        pendingOf (.par sawQ ds) ++
          (if c = escChar then csiScan q (some .esc) rest
            else c :: csiScan q none rest)

/-- One `replace(regex, '')` pass, started in scanning state. -/
def stripPass (q : Bool) (l : List Char) : List Char := csiScan q none l

/-- The `cleanData` computation of `broadcast`
(src/server/index.js:127): the first regex has no optional `?`, the
second has it. -/
def stripAnsi (s : String) : String :=
  String.mk (stripPass true (stripPass false s.data))

/-- The SSE frame `data: ${cleanData}\n\n` written to every registered
sink of the run by the original server's `broadcast`
(src/server/index.js:129). -/
def broadcastFrame (data : String) : String :=
  "data: " ++ stripAnsi data ++ "\n\n"

/-- C7 counterexample: raw ESC bytes do reach subscribers.  The chunk
`"\x1B]0;evil\x07hi"` starts an OSC (ESC-`]`) sequence, which neither
regex of `broadcast` matches (both require `[` after ESC), so the ESC
byte survives into the frame delivered to every subscriber.  (The
improved server's `broadcast`, src/server/index-improved.js:269-278,
strips nothing at all and forwards chunks verbatim.) -/
theorem broadcast_esc_passthrough_cex :
    escChar ∈ (broadcastFrame "\x1B]0;evil\x07hi").data := by decide

/-- Whether every ESC in the input begins a complete match of the CSI
regex (the `q`-variant), judged by the same scan as `csiScan`. -/
def csiOk (q : Bool) : Option CsiPhase → List Char → Bool
  | none, [] => true
  | some _, [] => false
  | none, c :: rest =>
      if c = escChar then csiOk q (some .esc) rest else csiOk q none rest
  | some .esc, c :: rest =>
      if c = '[' then csiOk q (some (.par false [])) rest else false
  | some (.par sawQ ds), c :: rest =>
      if isCsiParam c then csiOk q (some (.par sawQ (ds ++ [c]))) rest
      else if c.isAlpha then csiOk q none rest
      else if q && !sawQ && ds.isEmpty && c == '?' then
        csiOk q (some (.par true [])) rest
      else false

theorem csiOk_no_esc (q : Bool) :
    ∀ (l : List Char) (ph : Option CsiPhase),
      csiOk q ph l = true → escChar ∉ csiScan q ph l := by
  intro l
  induction l with
  | nil =>
      intro ph hok
      cases ph with
      | none => simp [csiScan]
      | some p => simp [csiOk] at hok
  | cons c rest ih =>
      intro ph hok
      cases ph with
      | none =>
          simp only [csiOk] at hok
          simp only [csiScan]
          by_cases hc : c = escChar
          · rw [if_pos hc] at hok ⊢
            exact ih (some .esc) hok
          · rw [if_neg hc] at hok ⊢
            intro hmem
            rcases List.mem_cons.mp hmem with h1 | h2
            · exact hc h1.symm
            · exact ih none hok h2
      | some p =>
          cases p with
          | esc =>
              simp only [csiOk] at hok
              simp only [csiScan]
              by_cases hc : c = '['
              · rw [if_pos hc] at hok ⊢
                exact ih (some (.par false [])) hok
              · rw [if_neg hc] at hok
                simp at hok
          | par sawQ ds =>
              simp only [csiOk] at hok
              simp only [csiScan]
              by_cases h1 : isCsiParam c
              · rw [if_pos h1] at hok ⊢
                exact ih (some (.par sawQ (ds ++ [c]))) hok
              · rw [if_neg h1] at hok ⊢
                by_cases h2 : c.isAlpha
                · rw [if_pos h2] at hok ⊢
                  exact ih none hok
                · rw [if_neg h2] at hok ⊢
                  by_cases h3 : (q && !sawQ && ds.isEmpty && c == '?') = true
                  · rw [if_pos h3] at hok ⊢
                    exact ih (some (.par true [])) hok
                  · rw [if_neg h3] at hok
                    simp at hok

theorem escChar_not_alpha : escChar.isAlpha = false := by decide

theorem qmark_not_param : isCsiParam '?' = false := by decide

theorem qmark_not_alpha : ('?' : Char).isAlpha = false := by decide

theorem qmark_ne_esc : ¬ ('?' : Char) = escChar := by decide

/-- Scanning a parameter run followed by a final letter from any
partial-match state completes the match: the whole block is dropped and
scanning resumes after it. -/
theorem csiScan_params_final (q sawQ : Bool) :
    ∀ (ps ds : List Char) (c : Char) (rest : List Char),
      (∀ x ∈ ps, isCsiParam x = true) → isCsiParam c = false →
      c.isAlpha = true →
      csiScan q (some (.par sawQ ds)) (ps ++ c :: rest) =
        csiScan q none rest := by
  intro ps
  induction ps with
  | nil =>
      intro ds c rest _ hc ha
      rw [List.nil_append]
      simp [csiScan, hc, ha]
  | cons x ps ih =>
      intro ds c rest hps hc ha
      have hx := hps x (List.mem_cons_self x ps)
      rw [List.cons_append]
      simp only [csiScan, hx]
      simp only [if_true]
      exact ih (ds ++ [x]) c rest
        (fun y hy => hps y (List.mem_cons_of_mem x hy)) hc ha

/-- The `csiOk` analogue of `csiScan_params_final`. -/
theorem csiOk_params_final (q sawQ : Bool) :
    ∀ (ps ds : List Char) (c : Char) (rest : List Char),
      (∀ x ∈ ps, isCsiParam x = true) → isCsiParam c = false →
      c.isAlpha = true →
      csiOk q (some (.par sawQ ds)) (ps ++ c :: rest) =
        csiOk q none rest := by
  intro ps
  induction ps with
  | nil =>
      intro ds c rest _ hc ha
      rw [List.nil_append]
      simp [csiOk, hc, ha]
  | cons x ps ih =>
      intro ds c rest hps hc ha
      have hx := hps x (List.mem_cons_self x ps)
      rw [List.cons_append]
      simp only [csiOk, hx]
      simp only [if_true]
      exact ih (ds ++ [x]) c rest
        (fun y hy => hps y (List.mem_cons_of_mem x hy)) hc ha

/-- In plain scanning state, a parameter run followed by a letter (no
character of which is ESC) is emitted verbatim. -/
theorem csiScan_plain_params :
    ∀ (ps : List Char) (c : Char) (rest : List Char),
      (∀ x ∈ ps, isCsiParam x = true) → isCsiParam c = false →
      c.isAlpha = true →
      csiScan false none (ps ++ c :: rest) =
        ps ++ c :: csiScan false none rest := by
  intro ps
  induction ps with
  | nil =>
      intro c rest _ hc ha
      have hne : ¬ c = escChar := by
        intro hce
        rw [hce] at ha
        exact absurd ha (by decide)
      rw [List.nil_append, List.nil_append]
      simp [csiScan, hne]
  | cons x ps ih =>
      intro c rest hps hc ha
      have hx := hps x (List.mem_cons_self x ps)
      have hxne : ¬ x = escChar := by
        intro hxe
        rw [hxe] at hx
        exact absurd hx (by decide)
      rw [List.cons_append, List.cons_append]
      simp only [csiScan, hxne, if_false]
      rw [ih c rest (fun y hy => hps y (List.mem_cons_of_mem x hy)) hc ha]

/-- Decomposition of a list accepted by `csiOk true` from a
partial-match state after ESC-`[`: it is a parameter run, a final
letter, and an accepted remainder — with one optional leading `?` when
none has been seen and no parameter consumed yet. -/
theorem csiOk_par_decomp :
    ∀ (l : List Char) (sawQ : Bool) (ds : List Char),
      csiOk true (some (.par sawQ ds)) l = true →
      (∃ ps c rest, l = ps ++ c :: rest ∧ (∀ x ∈ ps, isCsiParam x = true) ∧
          isCsiParam c = false ∧ c.isAlpha = true ∧
          csiOk true none rest = true) ∨
        (sawQ = false ∧ ds = [] ∧
          ∃ ps c rest, l = '?' :: (ps ++ c :: rest) ∧
            (∀ x ∈ ps, isCsiParam x = true) ∧ isCsiParam c = false ∧
            c.isAlpha = true ∧ csiOk true none rest = true) := by
  intro l
  induction l with
  | nil => intro sawQ ds h; simp [csiOk] at h
  | cons x xs ih =>
      intro sawQ ds h
      simp only [csiOk] at h
      by_cases h1 : isCsiParam x = true
      · rw [if_pos h1] at h
        rcases ih sawQ (ds ++ [x]) h with
          ⟨ps, c, rest, heq, hps, hc, ha, hrest⟩ | ⟨_, habs, _⟩
        · left
          refine ⟨x :: ps, c, rest, by rw [List.cons_append, heq], ?_, hc, ha,
            hrest⟩
          intro y hy
          rcases List.mem_cons.mp hy with hyx | hyp
          · rw [hyx]; exact h1
          · exact hps y hyp
        · exact absurd habs (by simp)
      · rw [if_neg h1] at h
        by_cases h2 : x.isAlpha = true
        · rw [if_pos h2] at h
          left
          exact ⟨[], x, xs, rfl, by simp, by simpa using h1, h2, h⟩
        · rw [if_neg h2] at h
          by_cases h3 : (true && !sawQ && ds.isEmpty && x == '?') = true
          · rw [if_pos h3] at h
            simp only [Bool.true_and, Bool.and_eq_true, Bool.not_eq_true',
              List.isEmpty_eq_true, beq_iff_eq] at h3
            rcases h3 with ⟨⟨hsq, hds⟩, hx⟩
            rcases ih true [] h with
              ⟨ps, c, rest, heq, hps, hc, ha, hrest⟩ | ⟨habs, _⟩
            · right
              exact ⟨hsq, hds, ps, c, rest, by rw [hx, heq], hps, hc, ha, hrest⟩
            · exact absurd habs (by simp)
          · rw [if_neg h3] at h
            exact absurd h (by simp)

/-- The first `replace` pass (the regex without the optional `?`)
preserves acceptance by the second regex: on a chunk where every ESC
begins a (possibly `?`-carrying) CSI sequence, pass one either removes
a whole `?`-less sequence or emits a `?`-carrying sequence verbatim, so
every ESC of its output still begins a CSI sequence. -/
theorem csiOk_stripPass_aux :
    ∀ (n : Nat) (l : List Char), l.length ≤ n → csiOk true none l = true →
      csiOk true none (csiScan false none l) = true := by
  intro n
  induction n with
  | zero =>
      intro l hl h
      have hnil : l = [] :=
        List.eq_nil_of_length_eq_zero (Nat.le_zero.mp hl)
      subst hnil
      simpa [csiScan] using h
  | succ n ih =>
      intro l hl h
      cases l with
      | nil => simpa [csiScan] using h
      | cons c rest =>
          by_cases hc : c = escChar
          · subst hc
            cases rest with
            | nil => simp [csiOk] at h
            | cons y ys =>
                by_cases hy : y = '['
                · subst hy
                  have h2 : csiOk true (some (.par false [])) ys = true := by
                    simpa [csiOk] using h
                  rcases csiOk_par_decomp ys false [] h2 with
                    ⟨ps, c2, rest3, heq, hps, hc2, ha2, hrest⟩ |
                    ⟨_, _, ps, c2, rest3, heq, hps, hc2, ha2, hrest⟩
                  · subst heq
                    have hscan : csiScan false none
                        (escChar :: '[' :: (ps ++ c2 :: rest3)) =
                        csiScan false none rest3 := by
                      have hstep : csiScan false none
                          (escChar :: '[' :: (ps ++ c2 :: rest3)) =
                          csiScan false (some (.par false []))
                            (ps ++ c2 :: rest3) := by
                        simp [csiScan]
                      rw [hstep,
                        csiScan_params_final false false ps [] c2 rest3 hps
                          hc2 ha2]
                    rw [hscan]
                    have hlen : rest3.length ≤ n := by
                      simp [List.length_append] at hl
                      omega
                    exact ih rest3 hlen hrest
                  · subst heq
                    have hscan : csiScan false none
                        (escChar :: '[' :: '?' :: (ps ++ c2 :: rest3)) =
                        escChar :: '[' :: '?' ::
                          (ps ++ c2 :: csiScan false none rest3) := by
                      have hstep : csiScan false none
                          (escChar :: '[' :: '?' :: (ps ++ c2 :: rest3)) =
                          csiScan false (some (.par false []))
                            ('?' :: (ps ++ c2 :: rest3)) := by
                        simp [csiScan]
                      rw [hstep]
                      simp only [csiScan, qmark_not_param, qmark_not_alpha,
                        Bool.false_and, if_false, qmark_ne_esc, pendingOf]
                      rw [csiScan_plain_params ps c2 rest3 hps hc2 ha2]
                      rfl
                    rw [hscan]
                    have hok : csiOk true none
                        (escChar :: '[' :: '?' ::
                          (ps ++ c2 :: csiScan false none rest3)) =
                        csiOk true none (csiScan false none rest3) := by
                      have hstep : csiOk true none
                          (escChar :: '[' :: '?' ::
                            (ps ++ c2 :: csiScan false none rest3)) =
                          csiOk true (some (.par true []))
                            (ps ++ c2 :: csiScan false none rest3) := by
                        simp [csiOk, qmark_not_param, qmark_not_alpha]
                      rw [hstep,
                        csiOk_params_final true true ps []
                          c2 (csiScan false none rest3) hps hc2 ha2]
                    rw [hok]
                    have hlen : rest3.length ≤ n := by
                      simp [List.length_append] at hl
                      omega
                    exact ih rest3 hlen hrest
                · exfalso
                  simp [csiOk, hy] at h
          · have hstep : csiScan false none (c :: rest) =
                c :: csiScan false none rest := by
              simp [csiScan, hc]
            have hok : csiOk true none (c :: rest) =
                csiOk true none rest := by
              simp [csiOk, hc]
            rw [hok] at h
            rw [hstep]
            have hok2 : csiOk true none (c :: csiScan false none rest) =
                csiOk true none (csiScan false none rest) := by
              simp [csiOk, hc]
            rw [hok2]
            have hlen : rest.length ≤ n := by
              simp at hl
              omega
            exact ih rest hlen h

/-- `stripAnsi`'s first pass preserves the every-ESC-begins-a-CSI
property judged by the second regex. -/
theorem csiOk_stripPass (l : List Char) (h : csiOk true none l = true) :
    csiOk true none (stripPass false l) = true :=
  csiOk_stripPass_aux l.length l (Nat.le_refl _) h

/-- C7 (amended): the original server's `broadcast` removes CSI escape
sequences only.  Whenever every ESC in a chunk begins a complete CSI
sequence — ESC, `[`, optionally `?`, digits or semicolons, one final
letter, i.e. the pattern of the second regex (`csiOk true`) — no ESC
byte appears in the frame any subscriber receives; ESC sequences of
any other shape (OSC, charset selection, a bare ESC) pass through
unchanged (`broadcast_esc_passthrough_cex`), and the improved server's
`broadcast` forwards chunks verbatim, relying instead on spawning the
process with `NO_COLOR=1`. -/
theorem broadcast_strips_csi (s : String)
    (h : csiOk true none s.data = true) :
    escChar ∉ (broadcastFrame s).data := by
  intro hmem
  have hdata : (broadcastFrame s).data =
      "data: ".data ++ (stripAnsi s).data ++ "\n\n".data := by
    simp [broadcastFrame, String.data_append]
  rw [hdata] at hmem
  rcases List.mem_append.mp hmem with h1 | h2
  · rcases List.mem_append.mp h1 with h3 | h4
    · exact absurd h3 (by decide)
    · have hok1 := csiOk_stripPass s.data h
      have hno := csiOk_no_esc true (stripPass false s.data) none hok1
      exact hno (by simpa [stripAnsi, stripPass] using h4)
  · exact absurd h2 (by decide)

/-- Witness for `broadcast_strips_csi`: a chunk with two color
sequences and one `?`-carrying CSI sequence loses every ESC byte. -/
theorem broadcast_strips_csi_witness :
    csiOk true none ("\x1B[31mred\x1B[0m\x1B[?25h".data) = true ∧
      escChar ∉ (broadcastFrame "\x1B[31mred\x1B[0m\x1B[?25h").data :=
  ⟨by decide,
    broadcast_strips_csi "\x1B[31mred\x1B[0m\x1B[?25h" (by decide)⟩

/-! ### Artifact collector -/

/-- An on-disk directory entry: a file, or a subdirectory with its own
entries (in `readdirSync` order). -/
inductive FsEntry where
  | file (name : String)
  | dir (name : String) (entries : List FsEntry)

/-- The recursive `walkDir` of `getRunVideos`/`getRunScreenshots`
(src/server/index.js:224-235, 248-259): for each entry in readdir
order, recurse into subdirectories with the extended URL prefix, and
collect files whose name matches the extension predicate as
`baseUrl/file`. -/
def walkDir (pred : String → Bool) : List FsEntry → String → List String
  | [], _ => []
  | .file name :: rest, base =>
      (if pred name then [base ++ "/" ++ name] else []) ++ walkDir pred rest base
  | .dir name entries :: rest, base =>
      walkDir pred entries (base ++ "/" ++ name) ++ walkDir pred rest base

/-- Lower-casing of a name (`String.prototype.toLowerCase` for the
ASCII names involved), computed characterwise so that the kernel can
evaluate it. -/
def lowerStr (s : String) : String := String.mk (s.data.map Char.toLower)

/-- Whether `s` ends with `suffix`, computed on the character
sequences (the anchored `$` of the regexes and `endsWith`). -/
def endsWithStr (s suffix : String) : Bool :=
  decide (suffix.data.length ≤ s.data.length) &&
    (s.data.drop (s.data.length - suffix.data.length) == suffix.data)

/-- The `/\.mp4$/i` test of `getRunVideos` (src/server/index.js:231). -/
def isVideoFile (name : String) : Bool := endsWithStr (lowerStr name) ".mp4"

/-- The `/\.(png|jpg|jpeg)$/i` test of `getRunScreenshots`
(src/server/index.js:255). -/
def isImageFile (name : String) : Bool :=
  endsWithStr (lowerStr name) ".png" || endsWithStr (lowerStr name) ".jpg" ||
    endsWithStr (lowerStr name) ".jpeg"

/-- `getRunVideos` (src/server/index.js:217-239).  The filesystem is
passed as `fsTree`: the entries of a directory path when it exists,
`none` when `fs.existsSync` is false for it.  Unknown run id: `[]`;
videos directory absent: `[]` (the guard at line 221 returns before any
walk, so no error can arise); otherwise the recursive walk collecting
`.mp4` files under the `/videos/...` URL prefix. -/
def getRunVideos (runs : List (String × Run))
    (fsTree : String → Option (List FsEntry)) (runId : String) : List String :=
  match findRun runs runId with
  | none => []
  | some run =>
      match fsTree (run.paths.runPath ++ "/cypress/videos") with
      | none => []
      | some entries =>
          walkDir isVideoFile entries ("/videos/" ++ runId ++ "/cypress/videos")

/-- `getRunScreenshots` (src/server/index.js:241-263), analogous. -/
def getRunScreenshots (runs : List (String × Run))
    (fsTree : String → Option (List FsEntry)) (runId : String) : List String :=
  match findRun runs runId with
  | none => []
  | some run =>
      match fsTree (run.paths.runPath ++ "/cypress/screenshots") with
      | none => []
      | some entries =>
          walkDir isImageFile entries
            ("/screenshots/" ++ runId ++ "/cypress/screenshots")

/-- `getRunResults` (src/server/index.js:265-271): `null` for an
unknown run or when `results/results.json` does not exist, the stable
URL otherwise.  `fileExists` is the `fs.existsSync` view of plain
files. -/
def getRunResults (runs : List (String × Run))
    (fileExists : String → Bool) (runId : String) : Option String :=
  match findRun runs runId with
  | none => none
  | some run =>
      if fileExists (run.paths.runPath ++ "/results/results.json") then
        some ("/results/" ++ runId ++ "/results/results.json")
      else none

/-- C9: for a run id present in the registry, each artifact query
returns the empty sequence (`null` for the results location) and raises
no error when the corresponding artifact path does not exist — the
`existsSync` guards return before any directory walk, and the Lean
functions, like the guarded JavaScript, are total. -/
theorem artifact_queries_empty_when_missing (runs : List (String × Run))
    (fsTree : String → Option (List FsEntry)) (fileExists : String → Bool)
    (runId : String) (run : Run) (hrun : findRun runs runId = some run) :
    (fsTree (run.paths.runPath ++ "/cypress/videos") = none →
        getRunVideos runs fsTree runId = []) ∧
      (fsTree (run.paths.runPath ++ "/cypress/screenshots") = none →
        getRunScreenshots runs fsTree runId = []) ∧
      (fileExists (run.paths.runPath ++ "/results/results.json") = false →
        getRunResults runs fileExists runId = none) := by
  refine ⟨fun hv => ?_, fun hs => ?_, fun hr => ?_⟩
  · simp [getRunVideos, hrun, hv]
  · simp [getRunScreenshots, hrun, hs]
  · simp [getRunResults, hrun, hr]

/-- Witness for `artifact_queries_empty_when_missing`: a freshly queued
run with no artifact directory on disk. -/
theorem artifact_queries_empty_when_missing_witness :
    findRun [("r", run0)] "r" = some run0 ∧
      getRunVideos [("r", run0)] (fun _ => none) "r" = [] ∧
      getRunScreenshots [("r", run0)] (fun _ => none) "r" = [] ∧
      getRunResults [("r", run0)] (fun _ => false) "r" = none := by
  have h := artifact_queries_empty_when_missing [("r", run0)] (fun _ => none)
    (fun _ => false) "r" run0 (by decide)
  exact ⟨by decide, h.1 rfl, h.2.1 rfl, h.2.2 rfl⟩

/-! ### The /start handler -/

/-- The `isZip` test of the `/start` handler:
`file.originalname.toLowerCase().endsWith('.zip')`
(src/unnamed/part_002:81; src/server/index.js:39 omits the
`toLowerCase`). -/
def isZipName (filename : String) : Bool :=
  endsWithStr (lowerStr filename) ".zip"

/-- The `isSpec` test `/\.cy\.(js|ts|mjs)$/i.test(file.originalname)`
(src/unnamed/part_002:82, src/server/index.js:40). -/
def isSpecName (filename : String) : Bool :=
  endsWithStr (lowerStr filename) ".cy.js" ||
    endsWithStr (lowerStr filename) ".cy.ts" ||
    endsWithStr (lowerStr filename) ".cy.mjs"

/-- The HTTP reply of the `/start` handler. -/
structure StartResponse where
  status : Nat
  ok : Bool
deriving DecidableEq, Repr

/-- The core of `app.post('/start')` (src/unnamed/part_002:57-120; the
same structure appears in src/server/index.js:29-71): the per-run
directory and its `work` subdirectory are created with `mkdirSync`
before the file-type check; a `.zip` upload is extracted into the
workspace and a `.cy.*` spec file is placed under `cypress/e2e` with a
synthesized config; any other filename is answered with a 400 response
— after the directories were already created, and without touching the
registry.  On success the run is registered as `queued`.  The run id
and clock value are passed in (they come from `Date`/`nanoid`);
extraction and file contents are beyond the directory granularity of
`fsDirs`. -/
def postStart (s : ServerState) (filename : String) (baseUrl : Option String)
    (runId : String) (now : Nat) : StartResponse × ServerState :=
  let runPath := "runs/" ++ runId
  let workPath := runPath ++ "/work"
  let s1 := { s with fsDirs := s.fsDirs ++ [runPath, workPath] }
  if isZipName filename then
    let run := initialRun runId now baseUrl filename ⟨runPath, workPath⟩
    ({ status := 200, ok := true }, { s1 with runs := s1.runs ++ [(runId, run)] })
  else if isSpecName filename then
    let s2 := { s1 with fsDirs := s1.fsDirs ++ [workPath ++ "/cypress/e2e"] }
    let run := initialRun runId now baseUrl filename ⟨runPath, workPath⟩
    ({ status := 200, ok := true }, { s2 with runs := s2.runs ++ [(runId, run)] })
  else
    ({ status := 400, ok := false }, s1)

/-- C10: a submission whose filename is neither a `.zip` nor a
`.cy.{js,ts,mjs}` spec is answered with a 400 error and adds no entry
to the run registry, yet the per-run directory and its `work`
subdirectory — created before the file-type check — remain on disk as
orphans. -/
theorem postStart_invalid_type_orphan_dirs (s : ServerState)
    (filename : String) (baseUrl : Option String) (runId : String) (now : Nat)
    (hzip : isZipName filename = false) (hspec : isSpecName filename = false) :
    (postStart s filename baseUrl runId now).1.status = 400 ∧
      (postStart s filename baseUrl runId now).1.ok = false ∧
      (postStart s filename baseUrl runId now).2.runs = s.runs ∧
      ("runs/" ++ runId) ∈ (postStart s filename baseUrl runId now).2.fsDirs ∧
      ("runs/" ++ runId ++ "/work") ∈
        (postStart s filename baseUrl runId now).2.fsDirs := by
  have hform : postStart s filename baseUrl runId now =
      ({ status := 400, ok := false },
        { s with fsDirs := s.fsDirs ++
            ["runs/" ++ runId, "runs/" ++ runId ++ "/work"] }) := by
    unfold postStart
    rw [hzip, hspec]
    rfl
  rw [hform]
  refine ⟨rfl, rfl, rfl, ?_, ?_⟩ <;> simp

/-- Witness for `postStart_invalid_type_orphan_dirs`: uploading
`"notes.txt"`. -/
theorem postStart_invalid_type_orphan_dirs_witness :
    isZipName "notes.txt" = false ∧ isSpecName "notes.txt" = false ∧
      (postStart emptyState "notes.txt" none "r1" 0).1.status = 400 ∧
      (postStart emptyState "notes.txt" none "r1" 0).2.runs = [] ∧
      ("runs/r1") ∈ (postStart emptyState "notes.txt" none "r1" 0).2.fsDirs :=
  ⟨by decide, by decide,
    (postStart_invalid_type_orphan_dirs emptyState "notes.txt" none "r1" 0
      (by decide) (by decide)).1,
    (postStart_invalid_type_orphan_dirs emptyState "notes.txt" none "r1" 0
      (by decide) (by decide)).2.2.1,
    (postStart_invalid_type_orphan_dirs emptyState "notes.txt" none "r1" 0
      (by decide) (by decide)).2.2.2.1⟩

end CypressRunner
